import Mathlib

/-!
Verification development for the felupe incremental equilibrium solver
(src/felupe/utils.py) and the MORPH constitutive model
(src/felupe/constitution/hyperelasticity/models/_morph.py).

Scalar values of the numerical code are modelled as `Option ℚ`, where
`none` stands for an IEEE not-a-number / non-finite value and `some q`
for the finite value `q`.  External collaborators (numpy linear algebra,
scipy assembly, the tensortrax tensor primitives) are abstracted as
explicit function parameters; the control flow, the arithmetic structure
and the guards of the repository code are embedded exactly.
-/

attribute [local semireducible] Rat.add Rat.sub Rat.mul Rat.inv

/-- Scalar of the floating-point model: `none` is NaN / non-finite. -/
abbrev FpVal := Option ℚ

/-- Vector of floating-point scalars (a 1-d numpy array). -/
abbrev FpVec := List FpVal

/-- Stack of per-field value arrays (the list `fields` of the solver). -/
abbrev Fields := List FpVec

/-- Test for a non-finite scalar, models `np.isnan` on one entry. -/
def fpIsNaN (x : FpVal) : Bool := x.isNone

/-- Models `np.any(np.isnan(v))` on a vector. -/
def hasNaN (v : FpVec) : Bool := v.any fpIsNaN

/-- Addition with NaN propagation. -/
def fpAdd : FpVal → FpVal → FpVal
  | some a, some b => some (a + b)
  | _, _ => none

/-- Division with NaN propagation; division by zero is non-finite. -/
def fpDiv : FpVal → FpVal → FpVal
  | some a, some b => if b = 0 then none else some (a / b)
  | _, _ => none

/-- Models the comparison `x == 0` of IEEE floats: NaN compares false. -/
def fpEqZero : FpVal → Bool
  | some a => decide (a = 0)
  | none => false

/-- Models the comparison `x < y` of IEEE floats: NaN compares false. -/
def fpLt : FpVal → FpVal → Bool
  | some a, some b => decide (a < b)
  | _, _ => false

/-- Sum of absolute values, a norm-like functional with NaN propagation,
used to instantiate the abstract `np.linalg.norm` collaborator on
concrete runs. -/
def sumAbs (v : FpVec) : FpVal :=
  v.foldl (fun a x =>
    match a, x with
    | some p, some q => some (p + |q|)
    | _, _ => none) (some 0)

/-- Helper of `npSplit`: sections of `v` from offset `prev` on, cut at
the remaining indices. -/
def npSplitAux (v : FpVec) (prev : Nat) : List Nat → List FpVec
  | [] => [v.drop prev]
  | i :: is => (v.drop prev).take (i - prev) :: npSplitAux v i is

/-- Models `np.split(v, idxs)`: sections `v[:i1], v[i1:i2], ..., v[ik:]`. -/
def npSplit (v : FpVec) (idxs : List Nat) : List FpVec :=
  npSplitAux v 0 idxs

/-- Models numpy fancy indexing `v[idxs]`. -/
def fancySelect (v : FpVec) (idxs : List Nat) : FpVec :=
  idxs.map fun i => v.getD i none

/-- Models `field.add(dfield)` applied to every field in
`for field, dfield in zip(fields, dfields)` (utils.py lines 91-92). -/
def fieldsAdd (fields : Fields) (dfields : List FpVec) : Fields :=
  List.zipWith (fun f df => List.zipWith fpAdd f df) fields dfields

/-- External collaborators of `newtonrhapson` (utils.py lines 71-86 and
94-122).  `assembleResidual` is the composite of the deformation
gradient, the stress function `fun_f`, interpolation and
`IntegralFormMixed(...).assemble()`; `assembleMatrix` is the same for
`fun_A`; `solveSystem` is `solve(*partition(fields, r, K, dof1, dof0),
u0ext)` with the constant `u0ext` folded in; `nrm` is
`np.linalg.norm`.  The matrix type `κ` is abstract. -/
structure NewtonEnv (κ : Type) where
  assembleResidual : Fields → FpVec
  assembleMatrix : Fields → κ
  solveSystem : Fields → FpVec → κ → FpVec
  nrm : FpVec → FpVal

/-- Loop state of `newtonrhapson`; `iters` counts executed iterations in
which a correction was applied, and `normRs` records the value `norm_r`
computed by each such iteration (ghost data for specification). -/
structure NewtonState (κ : Type) where
  fields : Fields
  r : FpVec
  K : κ
  converged : Bool
  iters : Nat
  normRs : List FpVal

/-- Convergence quantity of utils.py lines 103-106:
`rref = norm(r[dof0]); if rref == 0: rref = 1;
norm_r = norm(r[dof1]) / rref`. -/
def newtonNormR (nrm : FpVec → FpVal) (r : FpVec) (dof0 dof1 : List Nat) : FpVal :=
  let rref := nrm (fancySelect r dof0)
  let rref := if fpEqZero rref then some 1 else rref
  fpDiv (nrm (fancySelect r dof1)) rref

/-- Body of `for iteration in range(maxiter)` of `newtonrhapson`
(utils.py lines 83-122), with the iteration budget as structural fuel.
The NaN check of line 88 inspects `dfields[0]` only; on that branch the
loop breaks, returning the state unchanged.  The tangent `K` is
reassembled only when the convergence test fails (lines 117-122). -/
def newtonLoop (env : NewtonEnv κ) (dof1 dof0 : List Nat) (unstack : List Nat)
    (tol : ℚ) : Nat → NewtonState κ → NewtonState κ
  | 0, s => s
  | Nat.succ fuel, s =>
    let dfields := npSplit (env.solveSystem s.fields s.r s.K) unstack
    if hasNaN (dfields.headD []) then
      s
    else
      let fields := fieldsAdd s.fields dfields
      let r := env.assembleResidual fields
      let normR := newtonNormR env.nrm r dof0 dof1
      if fpLt normR (some tol) then
        { fields := fields, r := r, K := s.K, converged := true,
          iters := s.iters + 1, normRs := s.normRs ++ [normR] }
      else
        newtonLoop env dof1 dof0 unstack tol fuel
          { fields := fields, r := r, K := env.assembleMatrix fields,
            converged := false, iters := s.iters + 1,
            normRs := s.normRs ++ [normR] }

/-- Embedding of `newtonrhapson` (utils.py lines 62-128): initial
residual and tangent assembly, the Newton loop with `converged = False`
initially, and the returned result record (its `fields`, `r`, `K` and
`converged` members; `F`, `f`, `A`, `unstack` are collaborator data). -/
def newtonrhapson (env : NewtonEnv κ) (fields : Fields)
    (dof1 dof0 : List Nat) (unstack : List Nat)
    (maxiter : Nat) (tol : ℚ) : NewtonState κ :=
  let r := env.assembleResidual fields
  let K := env.assembleMatrix fields
  newtonLoop env dof1 dof0 unstack tol maxiter
    { fields := fields, r := r, K := K, converged := false,
      iters := 0, normRs := [] }

/-- Embedding of the increment loop of `incsolve` (utils.py lines
150-178).  `step` abstracts the per-increment work of lines 152-160:
setting `bounds[boundary].value = move_t`, computing `u0ext` and calling
`newtonrhapson`, returning its result record.  On a non-converged result
the loop breaks without appending; on success the result is appended and
the returned fields become the next baseline (`fields = Result.fields`). -/
def incsolve (step : Fields → ℚ → NewtonState κ) (fields : Fields)
    (move : List ℚ) : List (NewtonState κ) :=
  match move with
  | [] => []
  | m :: ms =>
    let R := step fields m
    if R.converged then R :: incsolve step R.fields ms else []

/-- Hypothetical full trace: the result records obtained by running every
increment of `move` unconditionally, threading the returned fields. -/
def incTrace (step : Fields → ℚ → NewtonState κ) (fields : Fields)
    (move : List ℚ) : List (NewtonState κ) :=
  match move with
  | [] => []
  | m :: ms =>
    let R := step fields m
    R :: incTrace step R.fields ms

/-- Embedding of `dofresiduals` (utils.py lines 45-59).  The in-place
numpy mutation `ry[ry == 0] = np.nan` of the caller-owned array `rref`
is modelled by explicit state passing: the function returns the pair of
its numpy return value and the mutated `rref` array.  `epn` is
`region.mesh.elements_per_node`. -/
def dofresiduals (epn : List Nat) (r rref : FpVec) (dof1 : Option (List Nat)) :
    FpVec × FpVec :=
  let ry := rref.map fun x => if fpEqZero x then none else x
  let rxy := List.zipWith fpDiv r ry
  let rxy := (List.zip (List.zip rxy r) epn).map
    fun q => if q.2 = 1 then q.1.2 else q.1.1
  match dof1 with
  | none => (rxy, ry)
  | some d => (d.map fun i => rxy.getD i none, ry)

/-- Symmetric 3x3 matrix type of the tensor variables of `morph`. -/
abbrev Mat3 := Matrix (Fin 3) (Fin 3) ℚ

/-- Models `tensortrax.math.special.sym`: the symmetric part. -/
def sym3 (A : Mat3) : Mat3 := (1 / 2 : ℚ) • (A + A.transpose)

/-- Models `tensortrax.math.special.dev`: the deviatoric part. -/
def dev3 (A : Mat3) : Mat3 := A - (A.trace / 3) • (1 : Mat3)

/-- Models `tensortrax.math.linalg.inv` on an invertible matrix via the
adjugate formula. -/
def inv3 (A : Mat3) : Mat3 := (A.det)⁻¹ • A.adjugate

/-- Models `tensortrax.math.special.triu_1d`: the six upper-triangular
components of a symmetric tensor, row-major. -/
def triu_1d (A : Mat3) : List ℚ :=
  [A 0 0, A 0 1, A 0 2, A 1 1, A 1 2, A 2 2]

/-- Models `tensortrax.math.special.from_triu_1d`: rebuild a symmetric
tensor from its six upper-triangular components. -/
def from_triu_1d (l : List ℚ) : Mat3 :=
  Matrix.of ![![l.getD 0 0, l.getD 1 0, l.getD 2 0],
              ![l.getD 1 0, l.getD 3 0, l.getD 4 0],
              ![l.getD 2 0, l.getD 4 0, l.getD 5 0]]

/-- Modelled from the spec: `tensortrax.math.special.try_stack` is a
library primitive not part of this repository.  Per its contract and the
specification, it stacks the new state entries, and when the stacking
operation cannot be stabilized numerically it returns the supplied
fallback unchanged.  The instability sentinel is the boolean `ok`,
computed by an abstract collaborator predicate. -/
def try_stack (ok : Bool) (stacked fallback : α) : α :=
  if ok then stacked else fallback

/-- External tensortrax collaborators of `morph`: `eigvalsh` returns the
eigenvalues sorted in ascending order, `expm` is the matrix exponential,
`sqrt` the scalar square root, `invCbrt` the map `x ↦ x ^ (-1/3)` used
for the unimodular part, and `stackOk` the instability sentinel of
`try_stack` (true when stacking the given parts over the given fallback
succeeds). -/
structure MorphPrims where
  eigvalsh : Mat3 → List ℚ
  expm : Mat3 → Mat3
  sqrt : ℚ → ℚ
  invCbrt : ℚ → ℚ
  stackOk : List (List ℚ) → List ℚ → Bool

/-- Algebraic sigmoid of `morph` (lines 100-102), over the abstract
scalar square root. -/
def morphSigmoid (pr : MorphPrims) (x : ℚ) : ℚ := 1 / pr.sqrt (1 + x ^ 2)

/-- Distortional part `CG = C * I3 ** (-1/3)` (lines 84-85). -/
def morphCG (pr : MorphPrims) (C : Mat3) : Mat3 := pr.invCbrt C.det • C

/-- Tresca invariant `CTG = λCG[-1] - λCG[0]` of the distortional part
(lines 92-95). -/
def morphCTG (pr : MorphPrims) (C : Mat3) : ℚ :=
  let lamCG := pr.eigvalsh (morphCG pr C)
  lamCG.getLastD 0 - lamCG.headD 0

/-- Maximum Tresca invariant in the load history,
`CTS = maximum(CTG, CTSn)` (line 98); `CTSn = statevars[0]` (line 79). -/
def morphCTS (pr : MorphPrims) (C : Mat3) (statevars : List ℚ) : ℚ :=
  max (morphCTG pr C) (statevars.headD 0)

/-- Incremental tensor `LG = sym(dev(invC @ dC)) @ CG` (line 109), with
`Cn = from_triu_1d(statevars[1:7])` (line 80) and `dC = C - Cn`
(line 89). -/
def morphLG (pr : MorphPrims) (C : Mat3) (statevars : List ℚ) : Mat3 :=
  sym3 (dev3 (inv3 C * (C - from_triu_1d ((statevars.drop 1).take 6)))) * morphCG pr C

/-- Tresca-type invariant `LTG = λLG[-1] - λLG[0]` of the incremental
tensor (lines 110-111). -/
def morphLTG (pr : MorphPrims) (C : Mat3) (statevars : List ℚ) : ℚ :=
  let lamLG := pr.eigvalsh (morphLG pr C statevars)
  lamLG.getLastD 0 - lamLG.headD 0

/-- Degeneracy-guarded normalization
`LG_LTG = if_else(LTG > 0, LG / LTG, LG)` (line 112). -/
def morphLG_LTG (pr : MorphPrims) (C : Mat3) (statevars : List ℚ) : Mat3 :=
  if 0 < morphLTG pr C statevars then
    (morphLTG pr C statevars)⁻¹ • morphLG pr C statevars
  else
    morphLG pr C statevars

/-- Overstress update of `morph` (lines 104-116): softening scalars,
limiting stresses `SL` and additional stresses
`SA = (SAn + β * LTG * SL) / (1 + β * LTG)`, with
`SAn = from_triu_1d(statevars[7:])` (line 81). -/
def morphSA (pr : MorphPrims) (C : Mat3) (statevars : List ℚ) (p : List ℚ) : Mat3 :=
  let CTS := morphCTS pr C statevars
  let β := p.getD 3 0 * morphSigmoid pr (p.getD 2 0 * CTS)
  let γ := p.getD 4 0 * CTS * (1 - morphSigmoid pr (CTS / p.getD 5 0))
  let LTG := morphLTG pr C statevars
  let LG_LTG := morphLG_LTG pr C statevars
  let SL := (γ • pr.expm ((p.getD 6 0 * morphCTG pr C / CTS) • LG_LTG)
      + p.getD 7 0 • LG_LTG) * inv3 C
  let SAn := from_triu_1d (statevars.drop 7)
  (1 + β * LTG)⁻¹ • (SAn + (β * LTG) • SL)

/-- New state entries `[[CTS], triu_1d(C), triu_1d(SA)]` stacked at
line 120 of `morph`. -/
def morphParts (pr : MorphPrims) (C : Mat3) (statevars : List ℚ) (p : List ℚ) :
    List (List ℚ) :=
  [[morphCTS pr C statevars], triu_1d C, triu_1d (morphSA pr C statevars p)]

/-- Embedding of `morph(C, statevars, p)` (lines 24-122): returns the
derivative `dψdC` of the strain energy with respect to `C` (the value
wrapped by `real_to_dual` at line 122) together with the new stacked
state `try_stack([[CTS], triu_1d(C), triu_1d(SA)], fallback=statevars)`. -/
def morph (pr : MorphPrims) (C : Mat3) (statevars : List ℚ) (p : List ℚ) :
    Mat3 × List ℚ :=
  let CTS := morphCTS pr C statevars
  let invC := inv3 C
  let CG := morphCG pr C
  let α := p.getD 0 0 + p.getD 1 0 * morphSigmoid pr (p.getD 2 0 * CTS)
  let SA := morphSA pr C statevars p
  let dψdC := (1 / 2 : ℚ) • ((2 * α) • (dev3 CG * invC) + dev3 (SA * C) * invC)
  let parts := morphParts pr C statevars p
  (dψdC, try_stack (pr.stackOk parts statevars) parts.flatten statevars)

/-- History invariant slot of a stacked MORPH state vector
(`statevars[0]`). -/
def morphHist (statevars : List ℚ) : ℚ := statevars.headD 0

/-- History invariants along a sequence of `morph` calls in which each
call is seeded with the state returned by the preceding call. -/
def morphHistSeq (pr : MorphPrims) (p : List ℚ) :
    List Mat3 → List ℚ → List ℚ
  | [], statevars => [morphHist statevars]
  | C :: Cs, statevars =>
    morphHist statevars :: morphHistSeq pr p Cs (morph pr C statevars p).2

/-- External scalar collaborators of `morph_uniaxial`: the scalar square
root and exponential of tensortrax, and the instability sentinel of
`try_stack` for the four stacked per-direction state entries. -/
structure UniaxPrims where
  sqrt : ℚ → ℚ
  exp : ℚ → ℚ
  stackOk : List ℚ → List ℚ → Bool

/-- Instantaneous Tresca invariant `CT = abs(λ**2 - 1/λ)` of the
uniaxial MORPH form (line 227). -/
def uniaxCT (lam : ℚ) : ℚ := |lam ^ 2 - 1 / lam|

/-- Maximum Tresca invariant in the load history of the uniaxial form,
`CTS = maximum(CT, CTSn)` (line 228), with `CTSn = statevars[:21]`
(line 222). -/
def uniaxCTS (lam : ℚ) (statevars : List ℚ) : ℚ :=
  max (uniaxCT lam) (statevars.getD 0 0)

/-- Algebraic sigmoid of `morph_uniaxial` (line 234), over the abstract
scalar square root. -/
def uniaxSigmoid (pr : UniaxPrims) (x : ℚ) : ℚ := 1 / pr.sqrt (1 + x ^ 2)

/-- Overstress update pair `(SA1, SA2)` of `morph_uniaxial` (lines
230-247): incremental quantities `L1`, `L2`, `LT`, the ε-stabilized
ratios, the limiting stresses `SL1`, `SL2` and the exponential moving
averages `SA = (SAn + β * LT * SL) / (1 + β * LT)`. -/
def uniaxSA (pr : UniaxPrims) (lam : ℚ) (statevars : List ℚ)
    (p : List ℚ) (ε : ℚ) : ℚ × ℚ :=
  let lamn := statevars.getD 1 0 + 1
  let SA1n := statevars.getD 2 0
  let SA2n := statevars.getD 3 0
  let CT := uniaxCT lam
  let CTS := uniaxCTS lam statevars
  let L1 := 2 * (lam ^ 3 / lamn - lamn ^ 2) / 3
  let L2 := (lamn ^ 2 / lam ^ 3 - 1 / lamn) / 3
  let LT := |L1 - L2|
  let β := p.getD 3 0 * uniaxSigmoid pr (p.getD 2 0 * CTS)
  let γ := p.getD 4 0 * CTS * (1 - uniaxSigmoid pr (CTS / p.getD 5 0))
  let L1_LT := L1 / (ε + LT)
  let L2_LT := L2 / (ε + LT)
  let CT_CTS := CT / (ε + CTS)
  let SL1 := (γ * pr.exp (p.getD 6 0 * L1_LT * CT_CTS) + p.getD 7 0 * L1_LT) / lam ^ 2
  let SL2 := (γ * pr.exp (p.getD 6 0 * L2_LT * CT_CTS) + p.getD 7 0 * L2_LT) * lam
  ((SA1n + β * LT * SL1) / (1 + β * LT), (SA2n + β * LT * SL2) / (1 + β * LT))

/-- New state entries `[CTS, λ - 1, SA1, SA2]` stacked at line 250 of
`morph_uniaxial`. -/
def uniaxParts (pr : UniaxPrims) (lam : ℚ) (statevars : List ℚ)
    (p : List ℚ) (ε : ℚ) : List ℚ :=
  [uniaxCTS lam statevars, lam - 1,
   (uniaxSA pr lam statevars p ε).1, (uniaxSA pr lam statevars p ε).2]

/-- Embedding of `morph_uniaxial(λ, statevars, p, ε)` (lines 194-252),
the per-direction scalar law of `morph_representative_directions`.  The
source applies this law elementwise over 21 fixed directions with the
state sliced as `statevars[:21], [21:42], [42:63], [63:]`; here the law
is embedded for one direction, with state `[CTSn, λn - 1, SA1n, SA2n]`.
Returns the scalar force `5 * dψdlam` (wrapped by `real_to_dual` in the
source) and the new stacked state
`try_stack([CTS, λ - 1, SA1, SA2], fallback=statevars)`. -/
def morph_uniaxial (pr : UniaxPrims) (lam : ℚ) (statevars : List ℚ)
    (p : List ℚ) (ε : ℚ) : ℚ × List ℚ :=
  let CTS := uniaxCTS lam statevars
  let α := p.getD 0 0 + p.getD 1 0 * uniaxSigmoid pr (p.getD 2 0 * CTS)
  let SA1 := (uniaxSA pr lam statevars p ε).1
  let SA2 := (uniaxSA pr lam statevars p ε).2
  let dψdlam := (2 * α + SA1) * lam - (2 * α + SA2) / lam ^ 2
  let parts := uniaxParts pr lam statevars p ε
  (5 * dψdlam, try_stack (pr.stackOk parts statevars) parts statevars)

/-- State after a sequence of `morph_uniaxial` calls, each seeded with
the state returned by the preceding call. -/
def uniaxChain (pr : UniaxPrims) (p : List ℚ) (ε : ℚ)
    (lams : List ℚ) (statevars : List ℚ) : List ℚ :=
  lams.foldl (fun sv lam => (morph_uniaxial pr lam sv p ε).2) statevars

/-- Scalar semantics over the reals of the algebraic sigmoid
`1 / sqrt(1 + x ** 2)` shared by `morph` (lines 100-102) and
`morph_uniaxial` (line 234): tensortrax `sqrt` acts elementwise as the
real square root. -/
noncomputable def morphSigmoidR (x : ℝ) : ℝ := 1 / Real.sqrt (1 + x ^ 2)

/-- Concrete instantiation with two fields of length one in which the
external linear solve returns a stacked correction whose second field
part is NaN while the first field part is finite. -/
def envSecondFieldNaN : NewtonEnv Unit :=
  { assembleResidual := fun _ => [some 0, some 0]
    assembleMatrix := fun _ => ()
    solveSystem := fun _ _ _ => [some 1, none]
    nrm := sumAbs }

/-- Concrete instantiation in which the external linear solve returns a
NaN correction for the first field. -/
def envFirstFieldNaN : NewtonEnv Unit :=
  { assembleResidual := fun _ => [some 0]
    assembleMatrix := fun _ => ()
    solveSystem := fun _ _ _ => [none]
    nrm := sumAbs }

/-- Entry state of the Newton loop for `envFirstFieldNaN`. -/
def stateFirstFieldNaN : NewtonState Unit :=
  { fields := [[some 0]], r := [some 0], K := (), converged := false,
    iters := 0, normRs := [] }

/-- Concrete instantiation whose residual norm never meets any tolerance
below one: the Newton loop always exhausts its iteration cap. -/
def envStall : NewtonEnv Unit :=
  { assembleResidual := fun _ => [some 1]
    assembleMatrix := fun _ => ()
    solveSystem := fun _ _ _ => [some 0]
    nrm := sumAbs }

/-- Concrete tensortrax collaborators whose stacking sentinel always
succeeds. -/
def morphPrimsOk : MorphPrims :=
  { eigvalsh := fun A => [A 0 0, A 1 1, A 2 2]
    expm := fun A => A
    sqrt := fun _ => 1
    invCbrt := fun _ => 1
    stackOk := fun _ _ => true }

/-- Concrete tensortrax collaborators whose stacking sentinel always
fires. -/
def morphPrimsFail : MorphPrims :=
  { eigvalsh := fun A => [A 0 0, A 1 1, A 2 2]
    expm := fun A => A
    sqrt := fun _ => 1
    invCbrt := fun _ => 1
    stackOk := fun _ _ => false }

/-- Concrete scalar collaborators of the uniaxial form whose stacking
sentinel always succeeds. -/
def uniaxPrimsOk : UniaxPrims :=
  { sqrt := fun _ => 1, exp := fun _ => 1, stackOk := fun _ _ => true }

/-- Concrete scalar collaborators of the uniaxial form whose stacking
sentinel always fires. -/
def uniaxPrimsFail : UniaxPrims :=
  { sqrt := fun _ => 1, exp := fun _ => 1, stackOk := fun _ _ => false }

/-- C5: in the convergence test of `newtonrhapson`, whenever the norm of
the residual restricted to the prescribed DOFs (`dof0`) is exactly zero,
the reference value `rref` is replaced by `1` before forming the ratio,
so the convergence ratio `norm_r` equals the finite value of the free
residual norm divided by one and no division by zero occurs. -/
theorem newton_rref_fallback (nrm : FpVec → FpVal) (r : FpVec)
    (dof0 dof1 : List Nat) (a : ℚ)
    (h0 : nrm (fancySelect r dof0) = some 0)
    (h1 : nrm (fancySelect r dof1) = some a) :
    newtonNormR nrm r dof0 dof1 = some a := by
  unfold newtonNormR
  rw [h0, h1]
  simp [fpEqZero, fpDiv]

theorem newton_rref_fallback_witness :
    newtonNormR (fun _ => some 0) [] [] [] = some 0 :=
  newton_rref_fallback (fun _ => some 0) [] [] [] 0 rfl rfl

/-- C2 counterexample: with two stacked fields and a correction whose
second field part contains NaN (first part finite), `newtonrhapson` does
not stop: it applies the correction (the fields change) and even returns
with the converged flag true. -/
theorem newton_nan_any_field_counterexample :
    hasNaN (envSecondFieldNaN.solveSystem [[some 0], [some 0]]
      [some 0, some 0] ()) = true ∧
    (newtonrhapson envSecondFieldNaN [[some 0], [some 0]] [1] [0] [1] 20 1).fields
      ≠ [[some 0], [some 0]] ∧
    (newtonrhapson envSecondFieldNaN [[some 0], [some 0]] [1] [0] [1] 20 1).converged
      = true := by
  refine ⟨rfl, ?_, by decide⟩
  decide

/-- C2 amended: in every Newton iteration, if the first field part
`dfields[0]` of the correction produced by the linear solve contains a
not-a-number value, the corrector stops immediately, leaving the loop
state (in particular every field and the converged flag, false on entry)
unchanged.  NaN confined to the parts of the other fields is not
inspected by the check of utils.py line 88. -/
theorem newton_nan_first_field_breaks (env : NewtonEnv κ)
    (dof1 dof0 unstack : List Nat) (tol : ℚ) (fuel : Nat) (s : NewtonState κ)
    (hc : s.converged = false)
    (hnan : hasNaN ((npSplit (env.solveSystem s.fields s.r s.K) unstack).headD [])
      = true) :
    newtonLoop env dof1 dof0 unstack tol fuel s = s ∧
    (newtonLoop env dof1 dof0 unstack tol fuel s).converged = false := by
  have h : newtonLoop env dof1 dof0 unstack tol fuel s = s := by
    cases fuel with
    | zero => rfl
    | succ n => simp only [newtonLoop, hnan]; simp
  exact ⟨h, by rw [h]; exact hc⟩

theorem newton_nan_first_field_breaks_witness :
    newtonLoop envFirstFieldNaN [] [] [] 1 20 stateFirstFieldNaN
      = stateFirstFieldNaN ∧
    (newtonLoop envFirstFieldNaN [] [] [] 1 20 stateFirstFieldNaN).converged
      = false :=
  newton_nan_first_field_breaks envFirstFieldNaN [] [] [] 1 20
    stateFirstFieldNaN rfl rfl

/-- C3: when `incsolve` receives a non-converged result from the
corrector it stops iterating immediately, appends nothing for the failed
increment, and returns exactly the result records of the increments that
converged before the failure, in order: the returned list is the longest
all-converged prefix of the hypothetical full trace of increments. -/
theorem incsolve_converged_prefix (step : Fields → ℚ → NewtonState κ)
    (fields : Fields) (move : List ℚ) :
    incsolve step fields move
      = (incTrace step fields move).takeWhile (fun R => R.converged) ∧
    ∀ R ∈ incsolve step fields move, R.converged = true := by
  constructor
  · induction move generalizing fields with
    | nil => rfl
    | cons m ms ih =>
      show (if (step fields m).converged then _ else _) = _
      rw [incTrace, List.takeWhile_cons]
      cases h : (step fields m).converged with
      | false => simp [h]
      | true => simp [h, ih]
  · induction move generalizing fields with
    | nil => intro R hR; cases hR
    | cons m ms ih =>
      intro R hR
      by_cases h : (step fields m).converged
      · rw [incsolve, if_pos h] at hR
        rcases List.mem_cons.mp hR with h1 | h2
        · rw [h1]; exact h
        · exact ih _ R h2
      · rw [incsolve, if_neg h] at hR
        cases hR


theorem newtonLoop_iters_le (env : NewtonEnv κ) (dof1 dof0 unstack : List Nat)
    (tol : ℚ) (fuel : Nat) (s : NewtonState κ) :
    (newtonLoop env dof1 dof0 unstack tol fuel s).iters ≤ s.iters + fuel := by
  induction fuel generalizing s with
  | zero => exact Nat.le_refl _
  | succ n ih =>
    simp only [newtonLoop]
    split
    · exact Nat.le_add_right _ _
    · split
      · show s.iters + 1 ≤ s.iters + (n + 1)
        omega
      · refine le_trans (ih _) ?_
        show s.iters + 1 + n ≤ s.iters + (n + 1)
        omega

theorem newtonLoop_no_tol_not_converged (env : NewtonEnv κ)
    (dof1 dof0 unstack : List Nat) (tol : ℚ) (fuel : Nat) (s : NewtonState κ)
    (hc : s.converged = false)
    (hall : ((newtonLoop env dof1 dof0 unstack tol fuel s).normRs).all
      (fun x => !fpLt x (some tol)) = true) :
    (newtonLoop env dof1 dof0 unstack tol fuel s).converged = false := by
  induction fuel generalizing s with
  | zero => exact hc
  | succ n ih =>
    simp only [newtonLoop] at hall ⊢
    split at hall
    · next h => rw [if_pos h]; exact hc
    · next h =>
      rw [if_neg h]
      split at hall
      · next hlt =>
        rw [if_pos hlt]
        exfalso
        simp only [List.all_append, List.all_cons, List.all_nil,
          Bool.and_true, Bool.and_eq_true] at hall
        rw [hlt] at hall
        exact Bool.false_ne_true hall.2
      · next hlt =>
        rw [if_neg hlt]
        exact ih _ rfl hall

/-- C7: `newtonrhapson` with iteration cap `maxiter` performs at most
`maxiter` iterations, and if the tolerance test is met at none of the
performed iterations the loop terminates with the converged flag of the
returned result record equal to false. -/
theorem newton_iteration_cap (env : NewtonEnv κ) (fields : Fields)
    (dof1 dof0 unstack : List Nat) (maxiter : Nat) (tol : ℚ)
    (hall : ((newtonrhapson env fields dof1 dof0 unstack maxiter tol).normRs).all
      (fun x => !fpLt x (some tol)) = true) :
    (newtonrhapson env fields dof1 dof0 unstack maxiter tol).iters ≤ maxiter ∧
    (newtonrhapson env fields dof1 dof0 unstack maxiter tol).converged = false := by
  have hs : newtonrhapson env fields dof1 dof0 unstack maxiter tol
      = newtonLoop env dof1 dof0 unstack tol maxiter
        { fields := fields, r := env.assembleResidual fields,
          K := env.assembleMatrix fields, converged := false,
          iters := 0, normRs := [] } := rfl
  rw [hs] at hall ⊢
  constructor
  · have h := newtonLoop_iters_le env dof1 dof0 unstack tol maxiter
      { fields := fields, r := env.assembleResidual fields,
        K := env.assembleMatrix fields, converged := false,
        iters := 0, normRs := [] }
    simpa using h
  · exact newtonLoop_no_tol_not_converged env dof1 dof0 unstack tol maxiter
      _ rfl hall

theorem newton_iteration_cap_witness :
    (newtonrhapson envStall [[some 0]] [0] [] [] 2 1).iters ≤ 2 ∧
    (newtonrhapson envStall [[some 0]] [0] [] [] 2 1).converged = false :=
  newton_iteration_cap envStall [[some 0]] [0] [] [] 2 1 (by decide)

theorem map_zeroNaN_fix (l : FpVec)
    (h : l.map (fun x => if fpEqZero x then none else x) = l) : some 0 ∉ l := by
  induction l with
  | nil => simp
  | cons a t ih =>
    simp only [List.map_cons, List.cons.injEq] at h
    intro hm
    rcases List.mem_cons.mp hm with h1 | h2
    · rw [← h1] at h
      simpa [fpEqZero] using h.1
    · exact ih h.2 h2

/-- C10: `dofresiduals` mutates its `rref` argument in place: every
entry of `rref` equal to zero is overwritten with NaN before the
elementwise ratio `r / rref` is formed; the mutated array, returned as
the second component of the state-passing embedding, is what the caller
observes after the call, and it differs from the passed array whenever
some entry was zero. -/
theorem dofresiduals_mutates_rref (epn : List Nat) (r rref : FpVec)
    (dof1 : Option (List Nat)) :
    (dofresiduals epn r rref dof1).2
      = rref.map (fun x => if fpEqZero x then none else x) ∧
    (some 0 ∈ rref → (dofresiduals epn r rref dof1).2 ≠ rref) := by
  have h2 : (dofresiduals epn r rref dof1).2
      = rref.map (fun x => if fpEqZero x then none else x) := by
    unfold dofresiduals
    cases dof1 <;> rfl
  exact ⟨h2, fun hmem heq => map_zeroNaN_fix rref (h2.symm.trans heq) hmem⟩

theorem dofresiduals_mutates_rref_witness :
    (dofresiduals [1] [some 1] [some 0] none).2
      = [some 0].map (fun x => if fpEqZero x then none else x) ∧
    (dofresiduals [1] [some 1] [some 0] none).2 ≠ [some 0] :=
  ⟨(dofresiduals_mutates_rref [1] [some 1] [some 0] none).1,
   (dofresiduals_mutates_rref [1] [some 1] [some 0] none).2 (by decide)⟩

theorem morphHist_morph (pr : MorphPrims) (p : List ℚ) (C : Mat3) (sv : List ℚ) :
    morphHist (morph pr C sv p).2
      = if pr.stackOk (morphParts pr C sv p) sv then morphCTS pr C sv
        else morphHist sv := by
  have hm : (morph pr C sv p).2
      = try_stack (pr.stackOk (morphParts pr C sv p) sv)
          (morphParts pr C sv p).flatten sv := rfl
  by_cases hok : pr.stackOk (morphParts pr C sv p) sv = true
  · rw [hm, hok]
    simp [try_stack, morphParts, morphHist]
  · have hf : pr.stackOk (morphParts pr C sv p) sv = false := by
      simpa using hok
    rw [hm, hf]
    simp [try_stack]

theorem morphHist_le_morph (pr : MorphPrims) (p : List ℚ) (C : Mat3)
    (sv : List ℚ) : morphHist sv ≤ morphHist (morph pr C sv p).2 := by
  rw [morphHist_morph]
  split
  · exact le_max_right _ _
  · exact le_refl _

theorem morphHistSeq_head (pr : MorphPrims) (p : List ℚ) (Cs : List Mat3)
    (sv : List ℚ) : (morphHistSeq pr p Cs sv).head? = some (morphHist sv) := by
  cases Cs <;> rfl

theorem morphHistSeq_chain (pr : MorphPrims) (p : List ℚ) (Cs : List Mat3) :
    ∀ sv : List ℚ, List.Chain' (· ≤ ·) (morphHistSeq pr p Cs sv) := by
  induction Cs with
  | nil => intro sv; simp [morphHistSeq]
  | cons C Cs ih =>
    intro sv
    rw [morphHistSeq, List.chain'_cons']
    refine ⟨?_, ih _⟩
    intro y hy
    rw [morphHistSeq_head] at hy
    obtain rfl : y = morphHist (morph pr C sv p).2 := by
      simpa [eq_comm] using hy
    exact morphHist_le_morph pr p C sv

/-- C1: the history invariant of the state returned by `morph` is the
maximum of the current Tresca invariant and the previous history
invariant taken from `statevars` (when the state stacking succeeds), and
across any sequence of calls in which each call is seeded with the
preceding returned state the history invariant is non-decreasing. -/
theorem morph_history_ratchet (pr : MorphPrims) (p : List ℚ) (C : Mat3)
    (sv : List ℚ) (Cs : List Mat3)
    (hok : pr.stackOk (morphParts pr C sv p) sv = true) :
    morphHist (morph pr C sv p).2 = max (morphCTG pr C) (morphHist sv) ∧
    List.Chain' (· ≤ ·) (morphHistSeq pr p Cs sv) := by
  constructor
  · rw [morphHist_morph, if_pos hok]; rfl
  · exact morphHistSeq_chain pr p Cs sv

theorem morph_history_ratchet_witness :
    morphHist (morph morphPrimsOk 1 [] []).2
      = max (morphCTG morphPrimsOk 1) (morphHist ([] : List ℚ)) ∧
    List.Chain' (· ≤ ·) (morphHistSeq morphPrimsOk [] [] []) :=
  morph_history_ratchet morphPrimsOk [] 1 [] [] rfl

/-- C4: in the MORPH evaluator, when the Tresca-type invariant `LTG` of
the incremental tensor `LG` is exactly zero, the guarded normalization
used by `morph` keeps `LG` unnormalized instead of dividing by the zero
invariant. -/
theorem morph_degeneracy_guard (pr : MorphPrims) (C : Mat3) (sv : List ℚ)
    (h : morphLTG pr C sv = 0) :
    morphLG_LTG pr C sv = morphLG pr C sv := by
  unfold morphLG_LTG
  rw [h]
  simp

theorem morph_degeneracy_guard_witness :
    morphLTG morphPrimsOk 1 [] = 0 ∧
    morphLG_LTG morphPrimsOk 1 [] = morphLG morphPrimsOk 1 [] :=
  ⟨by decide, morph_degeneracy_guard morphPrimsOk 1 [] (by decide)⟩

/-- C6: when the stacking of the new state vector cannot be stabilized
(the instability sentinel of `try_stack` fires), the evaluator returns
the previous state vector unchanged, in both the tensor variant `morph`
and the per-direction uniaxial law of the representative-directions
variant. -/
theorem morph_stack_fallback (pr : MorphPrims) (upr : UniaxPrims)
    (C : Mat3) (sv p : List ℚ) (lam : ℚ) (usv up : List ℚ) (ε : ℚ)
    (h1 : pr.stackOk (morphParts pr C sv p) sv = false)
    (h2 : upr.stackOk (uniaxParts upr lam usv up ε) usv = false) :
    (morph pr C sv p).2 = sv ∧ (morph_uniaxial upr lam usv up ε).2 = usv := by
  constructor
  · simp [morph, try_stack, h1]
  · simp [morph_uniaxial, try_stack, h2]

theorem morph_stack_fallback_witness :
    (morph morphPrimsFail 1 [] []).2 = [] ∧
    (morph_uniaxial uniaxPrimsFail 1 [] [] 0).2 = [] :=
  morph_stack_fallback morphPrimsFail uniaxPrimsFail 1 [] [] 1 [] [] 0 rfl rfl

/-- C8 counterexample: at the argument `x = 0` the algebraic sigmoid
`1 / sqrt(1 + x ** 2)` takes exactly the value `1`, so it is not true
that the sigmoid never takes the values 0, 1 or -1 for every real
argument. -/
theorem sigmoid_one_counterexample : morphSigmoidR 0 = 1 := by
  norm_num [morphSigmoidR, Real.sqrt_one]

/-- C8 amended: for every real argument the algebraic sigmoid is
strictly positive (hence never 0 and never -1) and at most 1, and it is
strictly below 1 (hence not 1) for every nonzero argument; it reaches 1
exactly at zero. -/
theorem sigmoid_range (x : ℝ) :
    0 < morphSigmoidR x ∧ morphSigmoidR x ≤ 1 ∧ morphSigmoidR x ≠ 0 ∧
    morphSigmoidR x ≠ -1 ∧ (x ≠ 0 → morphSigmoidR x < 1) := by
  have h1 : (0:ℝ) < 1 + x ^ 2 := by positivity
  have hs : 0 < Real.sqrt (1 + x ^ 2) := Real.sqrt_pos.mpr h1
  have hpos : 0 < morphSigmoidR x := by
    unfold morphSigmoidR
    exact one_div_pos.mpr hs
  have hle : morphSigmoidR x ≤ 1 := by
    unfold morphSigmoidR
    rw [div_le_one hs]
    calc (1:ℝ) = Real.sqrt 1 := Real.sqrt_one.symm
      _ ≤ Real.sqrt (1 + x ^ 2) := Real.sqrt_le_sqrt (by nlinarith [sq_nonneg x])
  refine ⟨hpos, hle, ne_of_gt hpos, ?_, ?_⟩
  · intro h
    rw [h] at hpos
    linarith
  · intro hx
    unfold morphSigmoidR
    rw [div_lt_one hs]
    have hx2 : (0:ℝ) < x ^ 2 := by positivity
    calc (1:ℝ) = Real.sqrt 1 := Real.sqrt_one.symm
      _ < Real.sqrt (1 + x ^ 2) := Real.sqrt_lt_sqrt (by norm_num) (by linarith)

theorem sigmoid_range_witness :
    0 < morphSigmoidR 2 ∧ morphSigmoidR 2 ≤ 1 ∧ morphSigmoidR 2 ≠ 0 ∧
    morphSigmoidR 2 ≠ -1 ∧ morphSigmoidR 2 < 1 :=
  ⟨(sigmoid_range 2).1, (sigmoid_range 2).2.1, (sigmoid_range 2).2.2.1,
   (sigmoid_range 2).2.2.2.1, (sigmoid_range 2).2.2.2.2 (by norm_num)⟩

/-- C9: for the uniaxial MORPH form with the stretch sequence
`λ = [1, 1.2, 1]`, each call seeded with the state returned by the
preceding call (with a stacking sentinel that succeeds), the
instantaneous Tresca invariant at `λ = 1.2` equals
`|1.2 ** 2 - 1 / 1.2| = 91/150 ≈ 0.6067`, the invariant at `λ = 1` is
`0`, the history invariant after the second step is `91/150`, and after
the third (unloaded) step the returned history invariant remains at the
step-2 value. -/
theorem uniax_ratchet_scenario (pr : UniaxPrims) (p : List ℚ) (ε : ℚ)
    (hok : ∀ a b, pr.stackOk a b = true) :
    uniaxCT (6/5) = 91/150 ∧ uniaxCT 1 = 0 ∧
    (uniaxChain pr p ε [1, 6/5] [0, 0, 0, 0]).getD 0 0 = 91/150 ∧
    (uniaxChain pr p ε [1, 6/5, 1] [0, 0, 0, 0]).getD 0 0
      = (uniaxChain pr p ε [1, 6/5] [0, 0, 0, 0]).getD 0 0 := by
  have hstep : ∀ (lam : ℚ) (sv : List ℚ),
      (morph_uniaxial pr lam sv p ε).2 = uniaxParts pr lam sv p ε := by
    intro lam sv
    simp [morph_uniaxial, try_stack, hok]
  have hCT12 : uniaxCT (6/5) = 91/150 := by norm_num [uniaxCT]
  have hCT1 : uniaxCT 1 = 0 := by norm_num [uniaxCT]
  have hchain2 : uniaxChain pr p ε [1, 6/5] [0, 0, 0, 0]
      = uniaxParts pr (6/5) (uniaxParts pr 1 [0, 0, 0, 0] p ε) p ε := by
    simp [uniaxChain, hstep]
  have hchain3 : uniaxChain pr p ε [1, 6/5, 1] [0, 0, 0, 0]
      = uniaxParts pr 1
          (uniaxParts pr (6/5) (uniaxParts pr 1 [0, 0, 0, 0] p ε) p ε) p ε := by
    simp [uniaxChain, hstep]
  have h1 : (uniaxParts pr 1 [0, 0, 0, 0] p ε).getD 0 0 = 0 := by
    simp [uniaxParts, uniaxCTS, hCT1]
  have h2 : (uniaxParts pr (6/5) (uniaxParts pr 1 [0, 0, 0, 0] p ε) p ε).getD 0 0
      = 91/150 := by
    simp only [uniaxParts, List.getD_cons_zero, uniaxCTS]
    rw [hCT12, hCT1]
    decide
  have h3 : (uniaxParts pr 1
      (uniaxParts pr (6/5) (uniaxParts pr 1 [0, 0, 0, 0] p ε) p ε) p ε).getD 0 0
      = 91/150 := by
    simp only [uniaxParts, List.getD_cons_zero, uniaxCTS]
    rw [hCT12, hCT1]
    decide
  refine ⟨hCT12, hCT1, ?_, ?_⟩
  · rw [hchain2]
    exact h2
  · rw [hchain3, hchain2, h3, h2]

theorem uniax_ratchet_scenario_witness :
    uniaxCT (6/5) = 91/150 ∧ uniaxCT 1 = 0 ∧
    (uniaxChain uniaxPrimsOk [] 0 [1, 6/5] [0, 0, 0, 0]).getD 0 0 = 91/150 ∧
    (uniaxChain uniaxPrimsOk [] 0 [1, 6/5, 1] [0, 0, 0, 0]).getD 0 0
      = (uniaxChain uniaxPrimsOk [] 0 [1, 6/5] [0, 0, 0, 0]).getD 0 0 :=
  uniax_ratchet_scenario uniaxPrimsOk [] 0 (fun _ _ => rfl)
